import Mathlib

/-!
Verification of the finance-advisor backend core against its design
specification.  The Python sources are shallowly embedded as executable Lean
definitions:

* text is modelled as lists of characters (Python str operations such as
  lower, strip and replace become list operations);
* the SQL layer (SQLAlchemy queries, pgvector ordering, unique indexes)
  becomes list filtering, sorting and explicit constraint-checking inserts;
* external capabilities (the OpenAI embedding endpoint, the pgvector
  distance operator, the Gmail/HubSpot fetch results, the chat model) are
  parameters of the definitions, and the number of calls made to them is
  returned explicitly so that call-count properties can be stated;
* exceptions become Except / Option values.

Each definition carries a comment naming the Python function it embeds.
-/

namespace FinAdv

/-- Text is modelled as a list of characters (Python str). -/
abbrev Str := List Char

/-- Convert a Lean string literal to the character-list model. -/
def str (s : String) : Str := s.data

/-- Python str.lower, character by character. -/
def lowerChars (s : Str) : Str := s.map Char.toLower

/-- Whitespace test used by Python str.strip / str.isspace (ASCII cases). -/
def isWsChar (c : Char) : Bool := c == ' ' || c == '\t' || c == '\n' || c == '\r'

/-- Python str.strip: drop leading and trailing whitespace. -/
def stripChars (s : Str) : Str :=
  ((s.dropWhile isWsChar).reverse.dropWhile isWsChar).reverse

/-- Python str.replace of a single space by the empty string. -/
def removeSpaces (s : Str) : Str := s.filter (fun c => !(c == ' '))

/-- Prefix test on character lists. -/
def startsWithChars : Str → Str → Bool
  | [], _ => true
  | _ :: _, [] => false
  | a :: as, b :: bs => a == b && startsWithChars as bs

/-- Substring test on character lists (needle, haystack); models SQL
LIKE with percent wildcards on both sides. -/
def hasSubstring (needle : Str) : Str → Bool
  | [] => needle.isEmpty
  | b :: bs => startsWithChars needle (b :: bs) || hasSubstring needle bs

/-- Insertion step of the sort used to model SQL ORDER BY. -/
def insertBy (le : α → α → Bool) (a : α) : List α → List α
  | [] => [a]
  | b :: bs => if le a b then a :: b :: bs else b :: insertBy le a bs

/-- Insertion sort used to model SQL ORDER BY (stable, executable). -/
def sortBy (le : α → α → Bool) : List α → List α
  | [] => []
  | a :: as => insertBy le a (sortBy le as)


/-! Retrieval engine: embedding of src/backend/app/services/rag_service.py.
The OpenAI embedding endpoint is a parameter (embed) and the pgvector
cosine-distance operator is a parameter (dist); both are external
capabilities in the design.  Each search result carries the number of
calls made to the embedding provider. -/

/-- Row of the emails table (src/backend/app/models.py, class Email).
The embedding column is nullable. -/
structure Email where
  userId : Nat
  gmailId : Str
  subject : Str
  fromEmail : Str
  bodyText : Str
  receivedAt : Nat
  embedding : Option (List ℚ)
deriving DecidableEq

/-- Row of the contacts table (src/backend/app/models.py, class Contact).
The rawData field models the raw_data JSON column via the external
properties it is assigned from. -/
structure ExtContact where
  email : Option Str
  firstName : Option Str
  lastName : Option Str
  phone : Option Str
  company : Option Str
deriving DecidableEq

structure Contact where
  userId : Nat
  hubspotId : Str
  email : Option Str
  firstName : Option Str
  lastName : Option Str
  phone : Option Str
  company : Option Str
  notes : Str
  rawData : ExtContact
  embedding : Option (List ℚ)
deriving DecidableEq

/-- Character ceiling applied before every embedding call
(rag_service.get_embedding, MAX_CHARS = 20000). -/
def embeddingMaxChars : Nat := 20000

/-- rag_service.get_embedding: truncate the text to the character ceiling,
then call the provider once. -/
def get_embedding (embed : Str → List ℚ) (text : Str) : List ℚ :=
  embed (text.take embeddingMaxChars)

/-- Normalisation applied to the query in rag_service.search_emails:
query.lower().strip(). -/
def queryNormed (q : Str) : Str := stripChars (lowerChars q)

/-- Exact-phase sender predicate of rag_service.search_emails: the
normalised query, or the query with spaces removed, is a case-insensitive
substring of from_email (the two ILIKE patterns). -/
def senderMatches (q : Str) (e : Email) : Bool :=
  hasSubstring (queryNormed q) (lowerChars e.fromEmail) ||
    hasSubstring (removeSpaces (queryNormed q)) (lowerChars e.fromEmail)

/-- Rows selected by the exact-match query: user scope plus sender match. -/
def emailSenderFilter (db : List Email) (u : Nat) (q : Str) : List Email :=
  db.filter (fun e => e.userId == u && senderMatches q e)

/-- ORDER BY received_at DESC comparison. -/
def recvDesc (a b : Email) : Bool := decide (b.receivedAt ≤ a.receivedAt)

/-- Exact-match phase of rag_service.search_emails: sender matches for the
user, newest first, truncated to the limit. -/
def exactMatches (db : List Email) (u : Nat) (q : Str) (limit : Nat) : List Email :=
  (sortBy recvDesc (emailSenderFilter db u q)).take limit

/-- ORDER BY embedding pgvector-distance-to-query ascending, for emails. -/
def emailDistLe (dist : List ℚ → List ℚ → ℚ) (qe : List ℚ) (a b : Email) : Bool :=
  decide (dist (a.embedding.getD []) qe ≤ dist (b.embedding.getD []) qe)

/-- WHERE user_id = u AND embedding IS NOT NULL, for emails. -/
def semanticEmailPool (db : List Email) (u : Nat) : List Email :=
  db.filter (fun e => e.userId == u && e.embedding.isSome)

/-- Semantic phase of rag_service.search_emails: rank the user's embedded
emails by ascending distance to the query embedding, take the limit. -/
def semanticEmails (dist : List ℚ → List ℚ → ℚ) (db : List Email) (u : Nat)
    (qe : List ℚ) (limit : Nat) : List Email :=
  (sortBy (emailDistLe dist qe) (semanticEmailPool db u)).take limit

structure EmailSearch where
  results : List Email
  embedCalls : Nat
deriving DecidableEq

/-- rag_service.search_emails: exact sender phase first; only on an empty
exact result embed the query (one provider call) and fall back to the
semantic ranking. -/
def search_emails (embed : Str → List ℚ) (dist : List ℚ → List ℚ → ℚ)
    (db : List Email) (u : Nat) (q : Str) (limit : Nat) : EmailSearch :=
  let exact := exactMatches db u q limit
  if exact.isEmpty then
    ⟨semanticEmails dist db u (get_embedding embed q) limit, 1⟩
  else
    ⟨exact, 0⟩

/-- ORDER BY embedding pgvector-distance-to-query ascending, for contacts. -/
def contactDistLe (dist : List ℚ → List ℚ → ℚ) (qe : List ℚ) (a b : Contact) : Bool :=
  decide (dist (a.embedding.getD []) qe ≤ dist (b.embedding.getD []) qe)

/-- WHERE user_id = u AND embedding IS NOT NULL, for contacts. -/
def semanticContactPool (db : List Contact) (u : Nat) : List Contact :=
  db.filter (fun c => c.userId == u && c.embedding.isSome)

structure ContactSearch where
  results : List Contact
  embedCalls : Nat
deriving DecidableEq

/-- rag_service.search_contacts: always embeds the query (one provider
call) and ranks the user's embedded contacts by ascending distance. -/
def search_contacts (embed : Str → List ℚ) (dist : List ℚ → List ℚ → ℚ)
    (db : List Contact) (u : Nat) (q : Str) (limit : Nat) : ContactSearch :=
  ⟨(sortBy (contactDistLe dist (get_embedding embed q)) (semanticContactPool db u)).take limit, 1⟩

structure ContextResult where
  emails : List Email
  contacts : List Contact
  embedCalls : Nat
deriving DecidableEq

/-- rag_service.get_relevant_context: search emails, then search contacts;
the embedding-provider call count is the sum of the two searches. -/
def get_relevant_context (embed : Str → List ℚ) (dist : List ℚ → List ℚ → ℚ)
    (edb : List Email) (cdb : List Contact) (u : Nat) (q : Str)
    (emailLimit contactLimit : Nat) : ContextResult :=
  let es := search_emails embed dist edb u q emailLimit
  let cs := search_contacts embed dist cdb u q contactLimit
  ⟨es.results, cs.results, es.embedCalls + cs.embedCalls⟩

/-! Ingestion and synchronization pipeline: embedding of
src/backend/app/routers/integrations.py.  The Gmail/HubSpot list and
detail calls are parameters: a run is given the flattened stream of list
items, each carrying the outcome (value or raised exception) of its
detail fetch.  Exceptions raised by the external calls or by the database
commit abort the remaining records of the run, mirroring the single
try/except around the paging loop. -/

/-- Sync source keys of the in-memory sync_status map. -/
inductive Source
  | gmail
  | hubspot
deriving DecidableEq

/-- One entry of the sync_status map (syncing flag, imported_count and
error fields; started_at and completed_at carry no logic and are not
modelled). -/
structure SyncEntry where
  syncing : Bool
  importedCount : Option Nat
  error : Option Str
deriving DecidableEq

/-- The in-memory sync_status map of integrations.py, keyed by user and
source; none models an absent dictionary entry. -/
def SyncStatus := Nat → Source → Option SyncEntry

/-- Write one entry of the sync_status map. -/
def setStatus (st : SyncStatus) (u : Nat) (s : Source) (e : SyncEntry) : SyncStatus :=
  fun v t => if v = u ∧ t = s then some e else st v t

/-- Completion update of a sync run: only when the entry exists (the code
guards with membership tests), set syncing to false and record the
imported count, keeping the other fields. -/
def markSyncDone (st : SyncStatus) (u : Nat) (s : Source) (imp : Nat) : SyncStatus :=
  match st u s with
  | none => st
  | some e => setStatus st u s { e with syncing := false, importedCount := some imp }

/-- Failure update of a sync run: only when the entry exists, set syncing
to false and record the error, keeping the other fields. -/
def markSyncFailed (st : SyncStatus) (u : Nat) (s : Source) (err : Str) : SyncStatus :=
  match st u s with
  | none => st
  | some e => setStatus st u s { e with syncing := false, error := some err }

/-- Detail of one Gmail message as parsed by google_service, without the
identifier (the code keys the Email row on the id from the list call). -/
structure ExtEmail where
  subject : Str
  fromEmail : Str
  bodyText : Str
  receivedAt : Nat
deriving DecidableEq

/-- One element of the Gmail list result: the message id together with
the outcome of the get_email detail call for it. -/
structure GmailListItem where
  gmailId : Str
  fetch : Except Str ExtEmail

/-- Combined text embedded for a new email
(subject and body joined by one space). -/
def gmailCombinedText (x : ExtEmail) : Str := x.subject ++ [' '] ++ x.bodyText

/-- Email row built by sync_gmail_background for a new message; the
embedding is attached only when the combined text is not pure whitespace. -/
def mkEmail (u : Nat) (embed : Str → List ℚ) (gid : Str) (x : ExtEmail) : Email :=
  { userId := u, gmailId := gid, subject := x.subject, fromEmail := x.fromEmail,
    bodyText := x.bodyText, receivedAt := x.receivedAt,
    embedding :=
      if (stripChars (gmailCombinedText x)).isEmpty then none
      else some (get_embedding embed (gmailCombinedText x)) }

/-- Dedup check of the sync loops: an Email row for this user with this
gmail id already exists. -/
def hasEmailFor (db : List Email) (u : Nat) (gid : Str) : Bool :=
  db.any (fun x => x.userId == u && x.gmailId == gid)

/-- Error message of a violated unique index. -/
def dupKeyErr : Str := str "duplicate key value violates unique constraint"

/-- Database commit of a new Email row.  The ix_emails_gmail_id index
(src/backend/app/models.py line 56, alembic 001_initial line 62) is
unique and not scoped by user, so the insert raises when any row of any
user already carries the gmail id. -/
def insertEmail (db : List Email) (e : Email) : Except Str (List Email) :=
  if db.any (fun x => x.gmailId == e.gmailId) then Except.error dupKeyErr
  else Except.ok (db ++ [e])

/-- Database commit of a new Contact row; ix_contacts_hubspot_id is
likewise globally unique. -/
def insertContact (db : List Contact) (c : Contact) : Except Str (List Contact) :=
  if db.any (fun x => x.hubspotId == c.hubspotId) then Except.error dupKeyErr
  else Except.ok (db ++ [c])

/-- Outcome of the record loop of a Gmail sync run: the database, the
imported counter, the number of detail fetches performed, the gmail ids
for which the trigger evaluator was invoked, and the exception that
aborted the run, if any. -/
structure GmailRun where
  db : List Email
  imported : Nat
  fetches : Nat
  triggered : List Str
  error : Option Str
deriving DecidableEq

/-- Record loop of sync_gmail_background: skip ids already imported for
this user; otherwise fetch the detail (an exception aborts the run),
build and commit the row (a constraint violation aborts the run), count
it, and invoke the trigger evaluator for it. -/
def processGmailMsgs (u : Nat) (embed : Str → List ℚ) :
    List GmailListItem → List Email → Nat → Nat → List Str → GmailRun
  | [], db, imp, fet, trg => ⟨db, imp, fet, trg, none⟩
  | item :: rest, db, imp, fet, trg =>
    if hasEmailFor db u item.gmailId then
      processGmailMsgs u embed rest db imp fet trg
    else
      match item.fetch with
      | Except.error e => ⟨db, imp, fet + 1, trg, some e⟩
      | Except.ok x =>
        match insertEmail db (mkEmail u embed item.gmailId x) with
        | Except.error e => ⟨db, imp, fet + 1, trg, some e⟩
        | Except.ok db2 =>
          processGmailMsgs u embed rest db2 (imp + 1) (fet + 1) (trg ++ [item.gmailId])

/-- Result of one sync entry (endpoint plus background task): database,
final sync_status, fetches, imported counter, trigger invocations. -/
structure BackgroundResult where
  db : List Email
  status : SyncStatus
  fetches : Nat
  imported : Nat
  triggered : List Str

/-- sync_gmail_background: re-read the user; when the user or token is
gone, return without touching sync_status (the early return); otherwise
run the record loop and then, in the success branch or in the except
branch, clear the syncing flag.  The clearing is branch code, not a
finally block: the only finally in the source closes the session. -/
def sync_gmail_background (u : Nat) (userHasToken : Bool)
    (msgs : List GmailListItem) (embed : Str → List ℚ)
    (db : List Email) (st : SyncStatus) : BackgroundResult :=
  if userHasToken then
    let r := processGmailMsgs u embed msgs db 0 0 []
    match r.error with
    | none => ⟨r.db, markSyncDone st u Source.gmail r.imported, r.fetches, r.imported, r.triggered⟩
    | some e => ⟨r.db, markSyncFailed st u Source.gmail e, r.fetches, r.imported, r.triggered⟩
  else
    ⟨db, st, 0, 0, []⟩

/-- Endpoint sync_gmail: without a Google token it raises 400 and touches
nothing; with one it unconditionally marks the source as syncing and
enqueues the background task.  It performs no read of sync_status before
the write. -/
def sync_gmail (st : SyncStatus) (u : Nat) (hasToken : Bool) : SyncStatus × Bool :=
  if hasToken then (setStatus st u Source.gmail ⟨true, none, none⟩, true) else (st, false)

/-- Full Gmail sync as observed end to end: the endpoint runs with the
token state at request time, the background task re-reads the token
state when it starts. -/
def fullGmailSync (st : SyncStatus) (u : Nat) (tokenAtEndpoint tokenAtTask : Bool)
    (msgs : List GmailListItem) (embed : Str → List ℚ) (db : List Email) :
    BackgroundResult :=
  let p := sync_gmail st u tokenAtEndpoint
  if p.2 then sync_gmail_background u tokenAtTask msgs embed db p.1
  else ⟨db, p.1, 0, 0, []⟩

/-- Record loop of poll_new_emails: same dedup, fetch, commit and trigger
logic as the full sync, with one extra guard dropping messages received
before the cutoff of the recent-window query. -/
def processPollMsgs (u : Nat) (embed : Str → List ℚ) (cutoff : Nat) :
    List GmailListItem → List Email → Nat → Nat → List Str → GmailRun
  | [], db, imp, fet, trg => ⟨db, imp, fet, trg, none⟩
  | item :: rest, db, imp, fet, trg =>
    if hasEmailFor db u item.gmailId then
      processPollMsgs u embed cutoff rest db imp fet trg
    else
      match item.fetch with
      | Except.error e => ⟨db, imp, fet + 1, trg, some e⟩
      | Except.ok x =>
        if x.receivedAt < cutoff then
          processPollMsgs u embed cutoff rest db imp (fet + 1) trg
        else
          match insertEmail db (mkEmail u embed item.gmailId x) with
          | Except.error e => ⟨db, imp, fet + 1, trg, some e⟩
          | Except.ok db2 =>
            processPollMsgs u embed cutoff rest db2 (imp + 1) (fet + 1) (trg ++ [item.gmailId])

/-- poll_new_emails: return untouched when the user or token is gone, and
likewise when sync_status marks a Gmail sync for this user as in
progress (the single-flight check, reading with a false default exactly
as the chained dict gets do); otherwise run the windowed record loop.
The poll never writes sync_status, on failure it only logs. -/
def poll_new_emails (u : Nat) (hasToken : Bool) (st : SyncStatus) (cutoff : Nat)
    (msgs : List GmailListItem) (embed : Str → List ℚ) (db : List Email) :
    BackgroundResult :=
  if hasToken then
    if ((st u Source.gmail).map SyncEntry.syncing).getD false then
      ⟨db, st, 0, 0, []⟩
    else
      let r := processPollMsgs u embed cutoff msgs db 0 0 []
      ⟨r.db, st, r.fetches, r.imported, r.triggered⟩
  else
    ⟨db, st, 0, 0, []⟩

/-- One element of the HubSpot list result: the contact id, its
properties, and the outcome of the get_contact_notes call (made only for
new contacts). -/
structure HubItem where
  hubspotId : Str
  props : ExtContact
  notesFetch : Except Str (List Str)

/-- Combined text embedded for a new contact: first name, last name,
email and notes joined by single spaces. -/
def contactText (p : ExtContact) (notesText : Str) : Str :=
  (p.firstName.getD []) ++ [' '] ++ (p.lastName.getD []) ++ [' '] ++
    (p.email.getD []) ++ [' '] ++ notesText

/-- Contact row built by sync_hubspot_background for a new contact; notes
are the fetched note bodies joined by newlines. -/
def mkContact (u : Nat) (embed : Str → List ℚ) (hid : Str) (p : ExtContact)
    (notes : List Str) : Contact :=
  let notesText := List.intercalate (str "\n") notes
  { userId := u, hubspotId := hid, email := p.email, firstName := p.firstName,
    lastName := p.lastName, phone := p.phone, company := p.company,
    notes := notesText, rawData := p,
    embedding :=
      if (stripChars (contactText p notesText)).isEmpty then none
      else some (get_embedding embed (contactText p notesText)) }

/-- In-place update of an existing Contact row by the HubSpot sync:
email, names, phone, company and raw_data are refreshed from the fetched
properties; notes, embedding and identifiers are not touched. -/
def updateContact (p : ExtContact) (c : Contact) : Contact :=
  { c with
    email := p.email
    firstName := p.firstName
    lastName := p.lastName
    phone := p.phone
    company := p.company
    rawData := p }

/-- Selector of the existing row the HubSpot sync queries for. -/
def matchesContact (u : Nat) (hid : Str) (c : Contact) : Bool :=
  c.userId == u && c.hubspotId == hid

/-- Dedup check of the HubSpot sync loop. -/
def hasContactFor (db : List Contact) (u : Nat) (hid : Str) : Bool :=
  db.any (fun c => matchesContact u hid c)

/-- Mutation of the first row matched by a query, modelling a first()
query result being updated in place. -/
def updateFirst (p : α → Bool) (f : α → α) : List α → List α
  | [] => []
  | c :: cs => if p c then f c :: cs else c :: updateFirst p f cs

/-- Outcome of the record loop of a HubSpot sync run.  No trigger
evaluator is invoked anywhere in this loop. -/
structure HubRun where
  db : List Contact
  imported : Nat
  fetches : Nat
  error : Option Str
deriving DecidableEq

/-- Record loop of sync_hubspot_background: an existing row for this user
and contact id is updated in place from the fetched properties (no notes
fetch, no counter increment); a new contact has its notes fetched (an
exception aborts the run), is committed (a constraint violation aborts
the run) and is counted. -/
def processHubItems (u : Nat) (embed : Str → List ℚ) :
    List HubItem → List Contact → Nat → Nat → HubRun
  | [], db, imp, fet => ⟨db, imp, fet, none⟩
  | it :: rest, db, imp, fet =>
    if hasContactFor db u it.hubspotId then
      processHubItems u embed rest
        (updateFirst (matchesContact u it.hubspotId) (updateContact it.props) db) imp fet
    else
      match it.notesFetch with
      | Except.error e => ⟨db, imp, fet + 1, some e⟩
      | Except.ok notes =>
        match insertContact db (mkContact u embed it.hubspotId it.props notes) with
        | Except.error e => ⟨db, imp, fet + 1, some e⟩
        | Except.ok db2 => processHubItems u embed rest db2 (imp + 1) (fet + 1)

/-- Result of a HubSpot sync entry. -/
structure HubBackgroundResult where
  db : List Contact
  status : SyncStatus
  fetches : Nat
  imported : Nat

/-- sync_hubspot_background, with the same early-return and branch-based
status clearing as the Gmail variant. -/
def sync_hubspot_background (u : Nat) (userHasToken : Bool)
    (items : List HubItem) (embed : Str → List ℚ)
    (db : List Contact) (st : SyncStatus) : HubBackgroundResult :=
  if userHasToken then
    let r := processHubItems u embed items db 0 0
    match r.error with
    | none => ⟨r.db, markSyncDone st u Source.hubspot r.imported, r.fetches, r.imported⟩
    | some e => ⟨r.db, markSyncFailed st u Source.hubspot e, r.fetches, r.imported⟩
  else
    ⟨db, st, 0, 0⟩

/-- Endpoint sync_hubspot: unconditional syncing mark, no prior read. -/
def sync_hubspot (st : SyncStatus) (u : Nat) (hasToken : Bool) : SyncStatus × Bool :=
  if hasToken then (setStatus st u Source.hubspot ⟨true, none, none⟩, true) else (st, false)

/-- Full HubSpot sync as observed end to end. -/
def fullHubspotSync (st : SyncStatus) (u : Nat) (tokenAtEndpoint tokenAtTask : Bool)
    (items : List HubItem) (embed : Str → List ℚ) (db : List Contact) :
    HubBackgroundResult :=
  let p := sync_hubspot st u tokenAtEndpoint
  if p.2 then sync_hubspot_background u tokenAtTask items embed db p.1
  else ⟨db, p.1, 0, 0⟩

/-! Conversation orchestrator, tool dispatcher and trigger evaluator:
embedding of src/backend/app/services/ai_agent.py.  The chat model is a
parameter: the first (tool-selecting) call, the per-tool handler bodies
and the final call are each given as Except values, an error standing
for a raised exception. -/

/-- One tool call returned by the model: a function name and the raw
JSON arguments string. -/
structure ToolCall where
  name : Str
  arguments : Str
deriving DecidableEq

/-- Payload returned by the tool dispatcher for one tool. -/
structure ToolResult where
  success : Bool
  error : Option Str
deriving DecidableEq

/-- AIAgent._execute_tool.  The json.loads of the arguments string runs
before the try block, so a parse failure propagates as an exception
(the Except.error branch); the dispatch body runs inside the try, so a
handler exception is converted to a success-false payload.  The unknown
tool branch is part of the handler and returns a payload, it does not
raise. -/
def execute_tool (parse : Str → Except Str Str)
    (handler : Str → Str → Except Str ToolResult) (tc : ToolCall) :
    Except Str ToolResult :=
  match parse tc.arguments with
  | Except.error e => Except.error e
  | Except.ok args =>
    match handler tc.name args with
    | Except.error e => Except.ok ⟨false, some e⟩
    | Except.ok r => Except.ok r

/-- Outcome of the sequential tool loop of AIAgent.chat: results appended
so far, the exception that escaped (if any), and how many tool calls
were actually started. -/
structure ToolLoop where
  results : List ToolResult
  raised : Option Str
  attempted : Nat
deriving DecidableEq

/-- Sequential tool loop of AIAgent.chat: execute each call in model
order; an exception abandons the remaining calls of the round. -/
def runTools (exec1 : ToolCall → Except Str ToolResult) :
    List ToolCall → ToolLoop
  | [] => ⟨[], none, 0⟩
  | tc :: rest =>
    match exec1 tc with
    | Except.error e => ⟨[], some e, 1⟩
    | Except.ok r =>
      let t := runTools exec1 rest
      ⟨r :: t.results, t.raised, t.attempted + 1⟩

/-- Assistant message of the first model call: optional content and the
requested tool calls. -/
structure AssistantMsg where
  content : Option Str
  toolCalls : List ToolCall

/-- Result dictionary of AIAgent.chat. -/
structure ChatResult where
  response : Option Str
  error : Option Str
  attemptedTools : Nat
deriving DecidableEq

/-- Error text prepended by the top-level except branch of AIAgent.chat. -/
def chatErrHead : Str := str "Error processing message: "

/-- AIAgent.chat: first model call; with no tool calls the assistant
content is the response; otherwise the tool loop runs and a second model
call produces the response.  Everything runs inside one try, whose
except branch returns a populated error and a none response; the
function is total, no exception escapes. -/
def chat (first : Except Str AssistantMsg)
    (exec1 : ToolCall → Except Str ToolResult)
    (final : Except Str Str) : ChatResult :=
  match first with
  | Except.error e => ⟨none, some (chatErrHead ++ e), 0⟩
  | Except.ok am =>
    match am.toolCalls with
    | [] => ⟨am.content, none, 0⟩
    | _ :: _ =>
      let loop := runTools exec1 am.toolCalls
      match loop.raised with
      | some e => ⟨none, some (chatErrHead ++ e), loop.attempted⟩
      | none =>
        match final with
        | Except.error e => ⟨none, some (chatErrHead ++ e), loop.attempted⟩
        | Except.ok t => ⟨some t, none, loop.attempted⟩

/-- Condition under which the Python AIAgent.chat body raises inside its
try block: the first model call raises, or a tool execution raises, or
tools ran and the final model call raises. -/
def chatRaises (first : Except Str AssistantMsg)
    (exec1 : ToolCall → Except Str ToolResult)
    (final : Except Str Str) : Prop :=
  (∃ e, first = Except.error e) ∨
    (∃ am, first = Except.ok am ∧ am.toolCalls ≠ [] ∧
      ((runTools exec1 am.toolCalls).raised ≠ none ∨
        ((runTools exec1 am.toolCalls).raised = none ∧ ∃ e, final = Except.error e)))

/-- Row of the ongoing_instructions table
(src/backend/app/models.py, class OngoingInstruction). -/
structure OngoingInstruction where
  userId : Nat
  instruction : Str
  triggerType : Option Str
  isActive : Bool
deriving DecidableEq

/-- The closed trigger-type set accepted by detect_trigger_type. -/
def validTriggerTypes : List Str :=
  [str "email", str "calendar", str "hubspot", str "all"]

/-- Normalisation applied to the classification output:
content.strip().lower(). -/
def normTrigger (raw : Str) : Str := lowerChars (stripChars raw)

/-- ai_agent.detect_trigger_type: one classification call; a raised
exception or an answer outside the closed set yields the fail-open
default all. -/
def detect_trigger_type (classify : Except Str Str) : Str :=
  match classify with
  | Except.error _ => str "all"
  | Except.ok raw =>
    let t := normTrigger raw
    if validTriggerTypes.contains t then t else str "all"

/-- Outcome of the create_ongoing_instruction tool branch of
AIAgent._execute_tool: the persisted row and the number of
classification calls made. -/
structure CreateInstrOutcome where
  instr : OngoingInstruction
  classifyCalls : Nat
deriving DecidableEq

/-- create_ongoing_instruction branch of AIAgent._execute_tool: when the
supplied trigger type is absent (or falsy, an empty string), one
classification call decides it; the row is persisted with is_active set
to true in every case. -/
def create_ongoing_instruction (classify : Except Str Str) (u : Nat)
    (instructionText : Str) (supplied : Option Str) : CreateInstrOutcome :=
  if (supplied.getD []).isEmpty then
    ⟨⟨u, instructionText, some (detect_trigger_type classify), true⟩, 1⟩
  else
    ⟨⟨u, instructionText, supplied, true⟩, 0⟩

/-- Instruction selection of AIAgent.process_ongoing_instructions: the
user's active rows whose trigger_type equals the event source type or
equals all. -/
def matching_instructions (db : List OngoingInstruction) (u : Nat)
    (trigger : Str) : List OngoingInstruction :=
  db.filter (fun i =>
    i.userId == u && i.isActive &&
      (i.triggerType == some trigger || i.triggerType == some (str "all")))

/-- Outcome of the trigger evaluator: the optional response and the
number of orchestrator (and hence model) invocations made. -/
structure TriggerOutcome where
  response : Option Str
  orchestratorCalls : Nat
deriving DecidableEq

/-- AIAgent.process_ongoing_instructions: load the matching active
instructions; with none, return immediately without any model call;
otherwise build the synthetic prompt from the event and the matching
instructions and delegate once to chat.  The delegate parameter stands
for that chat call on the built prompt. -/
def process_ongoing_instructions (delegate : List OngoingInstruction → Option Str)
    (db : List OngoingInstruction) (u : Nat) (trigger : Str) : TriggerOutcome :=
  let instrs := matching_instructions db u trigger
  if instrs.isEmpty then ⟨none, 0⟩ else ⟨delegate instrs, 1⟩

/-! Concrete fixtures used by witness and counterexample theorems. -/

/-- Embedding provider stub for witnesses. -/
def wEmbed : Str → List ℚ := fun _ => [1]

/-- Distance operator stub for witnesses. -/
def wDist : List ℚ → List ℚ → ℚ := fun v _ => v.length

def emailAlice : Email :=
  ⟨1, str "g1", str "Re: meeting", str "alice@x.com", str "hello", 100, some [1]⟩

def emailBob : Email :=
  ⟨1, str "g2", str "News", str "bob@y.com", str "world", 200, some [1, 1]⟩

def pCara : ExtContact :=
  ⟨some (str "cara@z.com"), some (str "Cara"), none, none, none⟩

def contactCara : Contact :=
  ⟨1, str "h1", some (str "cara@z.com"), some (str "Cara"), none, none, none,
    str "", pCara, some [1]⟩

/-- Status with a Gmail sync already marked in flight for user 1. -/
def wSyncingSt : SyncStatus :=
  fun v t => if v = 1 ∧ t = Source.gmail then some ⟨true, none, none⟩ else none

def wEmptySt : SyncStatus := fun _ _ => none

def wExt1 : ExtEmail := ⟨str "Hi", str "bob@y.com", str "hey", 50⟩

def wItem1 : GmailListItem := ⟨str "g9", Except.ok wExt1⟩

/-- List item whose detail fetch raises, aborting a run. -/
def wFailItem : GmailListItem := ⟨str "g3", Except.error (str "boom")⟩

def wItemFresh : GmailListItem := ⟨str "g5", Except.ok wExt1⟩

def pOld : ExtContact := ⟨some (str "a@x.com"), some (str "Old"), none, none, none⟩

def pNew : ExtContact := ⟨some (str "a@x.com"), some (str "New"), none, none, none⟩

def contactOld : Contact :=
  ⟨1, str "h1", some (str "a@x.com"), some (str "Old"), none, none, none,
    str "", pOld, none⟩

def hubItemNew : HubItem := ⟨str "h1", pNew, Except.ok []⟩

def hubItemFresh : HubItem := ⟨str "h7", pNew, Except.ok [str "a note"]⟩

/-- Email already imported under a different user (user 2) with the same
gmail id a later sync for user 1 will meet. -/
def emailOtherUser : Email :=
  ⟨2, str "g1", str "Old subject", str "zed@q.com", str "body", 10, none⟩

def wToolOk : Str → Str → Except Str ToolResult := fun _ _ => Except.ok ⟨true, none⟩

def wParseFail : Str → Except Str Str := fun _ => Except.error (str "bad json")

def wTc1 : ToolCall := ⟨str "send_email", str "not json"⟩

def wTc2 : ToolCall := ⟨str "create_task", str "also bad"⟩

def wInstrCal : OngoingInstruction :=
  ⟨1, str "watch my meetings", some (str "calendar"), true⟩

def wInstrAll : OngoingInstruction :=
  ⟨1, str "always tell me", some (str "all"), true⟩

/-! Helper lemmas about the sort used for ORDER BY. -/

theorem mem_insertBy (le : α → α → Bool) (a : α) (l : List α) (x : α) :
    x ∈ insertBy le a l ↔ x = a ∨ x ∈ l := by
  induction l with
  | nil => simp [insertBy]
  | cons b bs ih =>
    by_cases h : le a b = true
    · simp [insertBy, h]
    · simp only [insertBy, h, Bool.false_eq_true, if_false, List.mem_cons, ih]
      tauto

theorem mem_sortBy (le : α → α → Bool) (l : List α) (x : α) :
    x ∈ sortBy le l ↔ x ∈ l := by
  induction l with
  | nil => simp [sortBy]
  | cons a as ih => simp [sortBy, mem_insertBy, ih]

theorem length_insertBy (le : α → α → Bool) (a : α) (l : List α) :
    (insertBy le a l).length = l.length + 1 := by
  induction l with
  | nil => simp [insertBy]
  | cons b bs ih =>
    by_cases h : le a b = true
    · simp [insertBy, h]
    · simp [insertBy, h, ih]

theorem length_sortBy (le : α → α → Bool) (l : List α) :
    (sortBy le l).length = l.length := by
  induction l with
  | nil => rfl
  | cons a as ih => simp [sortBy, length_insertBy, ih]

theorem pairwise_insertBy (le : α → α → Bool)
    (htrans : ∀ a b c, le a b = true → le b c = true → le a c = true)
    (htot : ∀ a b, le a b = true ∨ le b a = true) (a : α) (l : List α)
    (hl : l.Pairwise (fun x y => le x y = true)) :
    (insertBy le a l).Pairwise (fun x y => le x y = true) := by
  induction l with
  | nil => simp [insertBy]
  | cons b bs ih =>
    rcases List.pairwise_cons.mp hl with ⟨hb, hbs⟩
    by_cases h : le a b = true
    · simp only [insertBy, if_pos h]
      refine List.pairwise_cons.mpr ⟨?_, hl⟩
      intro x hx
      rcases List.mem_cons.mp hx with hxb | hxbs
      · exact hxb ▸ h
      · exact htrans a b x h (hb x hxbs)
    · simp only [insertBy, if_neg h]
      refine List.pairwise_cons.mpr ⟨?_, ih hbs⟩
      intro x hx
      rcases (mem_insertBy le a bs x).mp hx with hxa | hxbs
      · rw [hxa]
        rcases htot a b with hab | hba
        · exact absurd hab h
        · exact hba
      · exact hb x hxbs

theorem pairwise_sortBy (le : α → α → Bool)
    (htrans : ∀ a b c, le a b = true → le b c = true → le a c = true)
    (htot : ∀ a b, le a b = true ∨ le b a = true) (l : List α) :
    (sortBy le l).Pairwise (fun x y => le x y = true) := by
  induction l with
  | nil => simp [sortBy]
  | cons a as ih => exact pairwise_insertBy le htrans htot a (sortBy le as) ih

theorem pairwise_take_sortBy (le : α → α → Bool)
    (htrans : ∀ a b c, le a b = true → le b c = true → le a c = true)
    (htot : ∀ a b, le a b = true ∨ le b a = true) (l : List α) (n : Nat) :
    ((sortBy le l).take n).Pairwise (fun x y => le x y = true) :=
  List.Pairwise.sublist (List.take_sublist n (sortBy le l))
    (pairwise_sortBy le htrans htot l)

/-! Support lemmas for the retrieval claims. -/

theorem recvDesc_trans (a b c : Email) (hab : recvDesc a b = true)
    (hbc : recvDesc b c = true) : recvDesc a c = true := by
  simp only [recvDesc, decide_eq_true_eq] at hab hbc ⊢
  exact le_trans hbc hab

theorem recvDesc_total (a b : Email) : recvDesc a b = true ∨ recvDesc b a = true := by
  simp only [recvDesc, decide_eq_true_eq]
  exact Nat.le_total b.receivedAt a.receivedAt

theorem emailDistLe_trans (dist : List ℚ → List ℚ → ℚ) (qe : List ℚ)
    (a b c : Email) (hab : emailDistLe dist qe a b = true)
    (hbc : emailDistLe dist qe b c = true) : emailDistLe dist qe a c = true := by
  simp only [emailDistLe, decide_eq_true_eq] at hab hbc ⊢
  exact le_trans hab hbc

theorem emailDistLe_total (dist : List ℚ → List ℚ → ℚ) (qe : List ℚ) (a b : Email) :
    emailDistLe dist qe a b = true ∨ emailDistLe dist qe b a = true := by
  simp only [emailDistLe, decide_eq_true_eq]
  exact le_total _ _

theorem exactMatches_not_empty (db : List Email) (u : Nat) (q : Str) (limit : Nat)
    (hf : emailSenderFilter db u q ≠ []) (hl : 0 < limit) :
    (exactMatches db u q limit).isEmpty = false := by
  have hlen : 0 < (exactMatches db u q limit).length := by
    rw [exactMatches, List.length_take, length_sortBy]
    exact lt_min hl (List.length_pos.mpr hf)
  cases hE : (exactMatches db u q limit).isEmpty
  · rfl
  · rw [List.isEmpty_iff] at hE
    rw [hE] at hlen
    simp at hlen

theorem exactMatches_of_empty_filter (db : List Email) (u : Nat) (q : Str)
    (limit : Nat) (hf : emailSenderFilter db u q = []) :
    (exactMatches db u q limit).isEmpty = true := by
  rw [exactMatches, hf]
  simp [sortBy]

/-- Branch lemma: with at least one sender match, search_emails serves
the exact phase and makes no embedding call. -/
theorem search_emails_exact_branch (embed : Str → List ℚ)
    (dist : List ℚ → List ℚ → ℚ) (db : List Email) (u : Nat) (q : Str)
    (limit : Nat) (hf : emailSenderFilter db u q ≠ []) (hl : 0 < limit) :
    search_emails embed dist db u q limit = ⟨exactMatches db u q limit, 0⟩ := by
  have hne := exactMatches_not_empty db u q limit hf hl
  simp [search_emails, hne]

/-- Branch lemma: with no sender match, search_emails embeds the query
and serves the semantic ranking. -/
theorem search_emails_semantic_branch (embed : Str → List ℚ)
    (dist : List ℚ → List ℚ → ℚ) (db : List Email) (u : Nat) (q : Str)
    (limit : Nat) (hf : emailSenderFilter db u q = []) :
    search_emails embed dist db u q limit =
      ⟨semanticEmails dist db u (get_embedding embed q) limit, 1⟩ := by
  have hne := exactMatches_of_empty_filter db u q limit hf
  simp [search_emails, hne]

/-- C1: for a query with at least one stored sender match (and a positive
email limit), search_emails returns exactly the exact-match emails of
that user, newest first, truncated to the limit, with zero embedding
calls — but get_relevant_context, which the claim also names, still
makes one embedding call, for its unconditional contact search. -/
theorem exact_match_precedence (embed : Str → List ℚ)
    (dist : List ℚ → List ℚ → ℚ) (edb : List Email) (cdb : List Contact)
    (u : Nat) (q : Str) (elim clim : Nat)
    (hf : emailSenderFilter edb u q ≠ []) (hl : 0 < elim) :
    (search_emails embed dist edb u q elim).embedCalls = 0 ∧
    (search_emails embed dist edb u q elim).results =
      (sortBy recvDesc (emailSenderFilter edb u q)).take elim ∧
    (∀ e ∈ (search_emails embed dist edb u q elim).results,
      e.userId = u ∧ senderMatches q e = true) ∧
    ((search_emails embed dist edb u q elim).results).Pairwise
      (fun a b => b.receivedAt ≤ a.receivedAt) ∧
    (search_emails embed dist edb u q elim).results.length ≤ elim ∧
    (get_relevant_context embed dist edb cdb u q elim clim).embedCalls = 1 ∧
    (get_relevant_context embed dist edb cdb u q elim clim).emails =
      (search_emails embed dist edb u q elim).results := by
  have hse := search_emails_exact_branch embed dist edb u q elim hf hl
  refine ⟨by rw [hse], by rw [hse]; rfl, ?_, ?_, ?_, ?_, ?_⟩
  · intro e he
    rw [hse] at he
    have h1 : e ∈ sortBy recvDesc (emailSenderFilter edb u q) :=
      List.mem_of_mem_take (by simpa [exactMatches] using he)
    have h2 : e ∈ emailSenderFilter edb u q := (mem_sortBy _ _ _).mp h1
    have h3 := (List.mem_filter.mp h2).2
    simp only [Bool.and_eq_true, beq_iff_eq] at h3
    exact h3
  · rw [hse]
    refine List.Pairwise.imp ?_
      (pairwise_take_sortBy recvDesc recvDesc_trans recvDesc_total
        (emailSenderFilter edb u q) elim)
    intro a b hab
    simpa [recvDesc] using hab
  · rw [hse]
    exact List.length_take_le elim _
  · simp [get_relevant_context, search_contacts, hse]
  · simp [get_relevant_context]

/-- C1, counterexample to the claim as stated: a query with a sender
match for the user, yet the retrieval operation get_relevant_context
still invokes the embedding provider (once, for contacts). -/
theorem exact_match_embeds_anyway :
    emailSenderFilter [emailAlice] 1 (str "alice") ≠ [] ∧
    (get_relevant_context wEmbed wDist [emailAlice] [contactCara] 1
      (str "alice") 5 5).embedCalls ≠ 0 := by
  constructor
  · decide
  · decide

/-- C1 witness: the amended claim evaluated on a concrete store. -/
theorem exact_match_precedence_witness :
    (search_emails wEmbed wDist [emailAlice, emailBob] 1 (str "alice") 5).embedCalls = 0 ∧
    (search_emails wEmbed wDist [emailAlice, emailBob] 1 (str "alice") 5).results =
      (sortBy recvDesc (emailSenderFilter [emailAlice, emailBob] 1 (str "alice"))).take 5 ∧
    (get_relevant_context wEmbed wDist [emailAlice, emailBob] [contactCara] 1
      (str "alice") 5 5).embedCalls = 1 := by
  have h := exact_match_precedence wEmbed wDist [emailAlice, emailBob] [contactCara]
    1 (str "alice") 5 5 (by decide) (by decide)
  exact ⟨h.1, h.2.1, h.2.2.2.2.2.1⟩

/-- C5: for a query with no stored sender match, search_emails makes
exactly one embedding call and returns the user's embedded emails ranked
by ascending distance to the query embedding, truncated to the limit;
search_contacts likewise makes exactly one embedding call. -/
theorem semantic_fallback (embed : Str → List ℚ)
    (dist : List ℚ → List ℚ → ℚ) (edb : List Email) (cdb : List Contact)
    (u : Nat) (q : Str) (elim clim : Nat)
    (hf : emailSenderFilter edb u q = []) :
    (search_emails embed dist edb u q elim).embedCalls = 1 ∧
    (search_emails embed dist edb u q elim).results =
      (sortBy (emailDistLe dist (get_embedding embed q))
        (semanticEmailPool edb u)).take elim ∧
    (∀ e ∈ (search_emails embed dist edb u q elim).results,
      e.userId = u ∧ e.embedding.isSome = true) ∧
    ((search_emails embed dist edb u q elim).results).Pairwise
      (fun a b => dist (a.embedding.getD []) (get_embedding embed q) ≤
        dist (b.embedding.getD []) (get_embedding embed q)) ∧
    (search_emails embed dist edb u q elim).results.length ≤ elim ∧
    (search_contacts embed dist cdb u q clim).embedCalls = 1 := by
  have hse := search_emails_semantic_branch embed dist edb u q elim hf
  refine ⟨by rw [hse], by rw [hse]; rfl, ?_, ?_, ?_, by simp [search_contacts]⟩
  · intro e he
    rw [hse] at he
    have h1 : e ∈ sortBy (emailDistLe dist (get_embedding embed q))
        (semanticEmailPool edb u) :=
      List.mem_of_mem_take (by simpa [semanticEmails] using he)
    have h2 : e ∈ semanticEmailPool edb u := (mem_sortBy _ _ _).mp h1
    have h3 := (List.mem_filter.mp h2).2
    simp only [Bool.and_eq_true, beq_iff_eq] at h3
    exact h3
  · rw [hse]
    refine List.Pairwise.imp ?_
      (pairwise_take_sortBy (emailDistLe dist (get_embedding embed q))
        (emailDistLe_trans dist _) (emailDistLe_total dist _)
        (semanticEmailPool edb u) elim)
    intro a b hab
    simpa [emailDistLe] using hab
  · rw [hse]
    exact List.length_take_le elim _

/-- C5 witness: the fallback evaluated on a concrete store with a query
matching no sender. -/
theorem semantic_fallback_witness :
    (search_emails wEmbed wDist [emailAlice, emailBob] 1 (str "quarterly plan") 5).embedCalls = 1 ∧
    (search_emails wEmbed wDist [emailAlice, emailBob] 1 (str "quarterly plan") 5).results =
      (sortBy (emailDistLe wDist (get_embedding wEmbed (str "quarterly plan")))
        (semanticEmailPool [emailAlice, emailBob] 1)).take 5 ∧
    (search_contacts wEmbed wDist [contactCara] 1 (str "quarterly plan") 5).embedCalls = 1 := by
  have h := semantic_fallback wEmbed wDist [emailAlice, emailBob] [contactCara]
    1 (str "quarterly plan") 5 5 (by decide)
  exact ⟨h.1, h.2.1, h.2.2.2.2.2⟩

/-- C4: whenever the body of AIAgent.chat raises — first model call, any
tool execution, or the final model call — the top-level except branch
returns a populated error and a none response; chat itself is a total
function, so no exception escapes its boundary. -/
theorem chat_catches_all (first : Except Str AssistantMsg)
    (exec1 : ToolCall → Except Str ToolResult) (fin : Except Str Str)
    (h : chatRaises first exec1 fin) :
    (chat first exec1 fin).response = none ∧ (chat first exec1 fin).error ≠ none := by
  rcases h with ⟨e, rfl⟩ | ⟨am, rfl, hne, hcase⟩
  · simp [chat]
  · cases hTc : am.toolCalls with
    | nil => exact absurd hTc hne
    | cons a l =>
      rw [hTc] at hcase
      simp only [chat, hTc]
      rcases hraise : (runTools exec1 (a :: l)).raised with _ | e2
      · rcases hcase with hr | ⟨hr0, e, rfl⟩
        · exact absurd hraise hr
        · simp [hraise]
      · simp [hraise]

/-- C4 witness: a raised first model call surfaces as an error result. -/
theorem chat_catches_all_witness :
    (chat (Except.error (str "boom")) (execute_tool wParseFail wToolOk)
      (Except.ok (str "done"))).response = none ∧
    (chat (Except.error (str "boom")) (execute_tool wParseFail wToolOk)
      (Except.ok (str "done"))).error ≠ none :=
  chat_catches_all (Except.error (str "boom")) (execute_tool wParseFail wToolOk)
    (Except.ok (str "done")) (Or.inl ⟨str "boom", rfl⟩)

/-- C9: a tool call whose arguments string fails to parse raises before
the per-tool try block, so the remaining calls of the round never start,
no success-false payload is produced, and the turn surfaces as a
top-level error result with no response text. -/
theorem toolarg_parse_error_is_turn_level (parse : Str → Except Str Str)
    (handler : Str → Str → Except Str ToolResult) (tc1 tc2 : ToolCall)
    (content : Option Str) (fin : Except Str Str) (e : Str)
    (hp : parse tc1.arguments = Except.error e) :
    (chat (Except.ok ⟨content, [tc1, tc2]⟩) (execute_tool parse handler)
      fin).attemptedTools = 1 ∧
    (chat (Except.ok ⟨content, [tc1, tc2]⟩) (execute_tool parse handler)
      fin).response = none ∧
    (chat (Except.ok ⟨content, [tc1, tc2]⟩) (execute_tool parse handler)
      fin).error = some (chatErrHead ++ e) ∧
    (runTools (execute_tool parse handler) [tc1, tc2]).results = [] := by
  have hex : execute_tool parse handler tc1 = Except.error e := by
    simp [execute_tool, hp]
  have hrun : runTools (execute_tool parse handler) [tc1, tc2] = ⟨[], some e, 1⟩ := by
    simp [runTools, hex]
  refine ⟨?_, ?_, ?_, by rw [hrun]⟩ <;> simp [chat, hrun]

/-- C9 witness: a malformed arguments string on the first of two tool
calls, evaluated concretely. -/
theorem toolarg_parse_error_witness :
    (chat (Except.ok ⟨none, [wTc1, wTc2]⟩) (execute_tool wParseFail wToolOk)
      (Except.ok (str "done"))).attemptedTools = 1 ∧
    (chat (Except.ok ⟨none, [wTc1, wTc2]⟩) (execute_tool wParseFail wToolOk)
      (Except.ok (str "done"))).response = none ∧
    (chat (Except.ok ⟨none, [wTc1, wTc2]⟩) (execute_tool wParseFail wToolOk)
      (Except.ok (str "done"))).error = some (chatErrHead ++ str "bad json") ∧
    (runTools (execute_tool wParseFail wToolOk) [wTc1, wTc2]).results = [] :=
  toolarg_parse_error_is_turn_level wParseFail wToolOk wTc1 wTc2 none
    (Except.ok (str "done")) (str "bad json") rfl

/-- C7: the trigger evaluator selects exactly the user's active standing
instructions typed for the event source or typed all; a differently
typed instruction never fires, an all-typed one always fires, and with
no match the evaluator returns at once with no orchestrator call. -/
theorem trigger_filtering (delegate : List OngoingInstruction → Option Str)
    (db : List OngoingInstruction) (u : Nat) (trigger : Str) :
    (∀ i, i ∈ matching_instructions db u trigger ↔
      (i ∈ db ∧ i.userId = u ∧ i.isActive = true ∧
        (i.triggerType = some trigger ∨ i.triggerType = some (str "all")))) ∧
    (∀ i t2, i ∈ db → i.triggerType = some t2 → t2 ≠ trigger → t2 ≠ str "all" →
      i ∉ matching_instructions db u trigger) ∧
    (∀ i, i ∈ db → i.userId = u → i.isActive = true →
      i.triggerType = some (str "all") → i ∈ matching_instructions db u trigger) ∧
    (matching_instructions db u trigger = [] →
      process_ongoing_instructions delegate db u trigger = ⟨none, 0⟩) := by
  have hmem : ∀ i, i ∈ matching_instructions db u trigger ↔
      (i ∈ db ∧ i.userId = u ∧ i.isActive = true ∧
        (i.triggerType = some trigger ∨ i.triggerType = some (str "all"))) := by
    intro i
    simp [matching_instructions, List.mem_filter, Bool.and_eq_true,
      Bool.or_eq_true, beq_iff_eq, and_assoc]
  refine ⟨hmem, ?_, ?_, ?_⟩
  · intro i t2 hi htt hne hna hmemi
    rcases ((hmem i).mp hmemi).2.2.2 with hcur | hall
    · rw [htt] at hcur
      exact hne (Option.some_injective _ hcur)
    · rw [htt] at hall
      exact hna (Option.some_injective _ hall)
  · intro i hi hu ha hall
    exact (hmem i).mpr ⟨hi, hu, ha, Or.inr hall⟩
  · intro h0
    simp [process_ongoing_instructions, h0]

/-- C7 witness: a calendar-typed instruction does not fire on an email
event, an all-typed one does, and an unmatched event makes no
orchestrator call. -/
theorem trigger_filtering_witness :
    wInstrCal ∉ matching_instructions [wInstrCal, wInstrAll] 1 (str "email") ∧
    wInstrAll ∈ matching_instructions [wInstrCal, wInstrAll] 1 (str "email") ∧
    process_ongoing_instructions (fun _ => some (str "acted")) [wInstrCal] 1
      (str "email") = ⟨none, 0⟩ := by
  refine ⟨?_, ?_, ?_⟩
  · exact (trigger_filtering (fun _ => some (str "acted")) [wInstrCal, wInstrAll] 1
      (str "email")).2.1 wInstrCal (str "calendar") (by simp) rfl (by decide) (by decide)
  · exact (trigger_filtering (fun _ => some (str "acted")) [wInstrCal, wInstrAll] 1
      (str "email")).2.2.1 wInstrAll (by simp) rfl rfl rfl
  · exact (trigger_filtering (fun _ => some (str "acted")) [wInstrCal] 1
      (str "email")).2.2.2 (by decide)

/-- C8: creating a standing instruction without a supplied trigger type
makes one classification call; a thrown or out-of-set classification
result fails open to all, an in-set result is used; the row is always
persisted active. -/
theorem classification_fail_open (classify : Except Str Str) (u : Nat)
    (instrText : Str) (supplied : Option Str) :
    (create_ongoing_instruction classify u instrText supplied).instr.isActive = true ∧
    (create_ongoing_instruction classify u instrText none).classifyCalls = 1 ∧
    (∀ e, classify = Except.error e →
      (create_ongoing_instruction classify u instrText none).instr.triggerType =
        some (str "all")) ∧
    (∀ raw, classify = Except.ok raw →
      validTriggerTypes.contains (normTrigger raw) = true →
      (create_ongoing_instruction classify u instrText none).instr.triggerType =
        some (normTrigger raw)) ∧
    (∀ raw, classify = Except.ok raw →
      validTriggerTypes.contains (normTrigger raw) = false →
      (create_ongoing_instruction classify u instrText none).instr.triggerType =
        some (str "all")) := by
  refine ⟨?_, by simp [create_ongoing_instruction], ?_, ?_, ?_⟩
  · cases supplied with
    | none => simp [create_ongoing_instruction]
    | some s =>
      by_cases hs : s.isEmpty = true
      · simp [create_ongoing_instruction, hs]
      · simp [create_ongoing_instruction, hs]
  · intro e he
    subst he
    simp [create_ongoing_instruction, detect_trigger_type]
  · intro raw hr hv
    subst hr
    have hmem2 : normTrigger raw ∈ validTriggerTypes := by simpa using hv
    simp [create_ongoing_instruction, detect_trigger_type, hmem2]
  · intro raw hr hv
    subst hr
    have hmem2 : normTrigger raw ∉ validTriggerTypes := by simpa using hv
    simp [create_ongoing_instruction, detect_trigger_type, hmem2]

/-- C8 witness: a noisy valid answer is normalised and used, an invalid
answer and a thrown classification both fail open to all, and the rows
persist active. -/
theorem classification_fail_open_witness :
    (create_ongoing_instruction (Except.ok (str " CALENDAR ")) 1
      (str "watch meetings") none).instr.triggerType = some (str "calendar") ∧
    (create_ongoing_instruction (Except.ok (str "banana")) 1
      (str "watch meetings") none).instr.triggerType = some (str "all") ∧
    (create_ongoing_instruction (Except.error (str "timeout")) 1
      (str "watch meetings") none).instr.triggerType = some (str "all") ∧
    (create_ongoing_instruction (Except.error (str "timeout")) 1
      (str "watch meetings") none).instr.isActive = true ∧
    (create_ongoing_instruction (Except.error (str "timeout")) 1
      (str "watch meetings") none).classifyCalls = 1 := by
  refine ⟨?_, ?_, ?_, ?_, ?_⟩
  · have h := (classification_fail_open (Except.ok (str " CALENDAR ")) 1
      (str "watch meetings") none).2.2.2.1 (str " CALENDAR ") rfl (by decide)
    simpa using h
  · exact (classification_fail_open (Except.ok (str "banana")) 1
      (str "watch meetings") none).2.2.2.2 (str "banana") rfl (by decide)
  · exact (classification_fail_open (Except.error (str "timeout")) 1
      (str "watch meetings") none).2.2.1 (str "timeout") rfl
  · exact (classification_fail_open (Except.error (str "timeout")) 1
      (str "watch meetings") none).1
  · exact (classification_fail_open (Except.error (str "timeout")) 1
      (str "watch meetings") none).2.1

/-! Support lemmas for the synchronization claims. -/

theorem setStatus_self (st : SyncStatus) (u : Nat) (s : Source) (e : SyncEntry) :
    setStatus st u s e u s = some e := by
  simp [setStatus]

theorem markSyncDone_point (st : SyncStatus) (u : Nat) (s : Source) (imp : Nat)
    (e0 : SyncEntry) (h : st u s = some e0) :
    markSyncDone st u s imp u s =
      some { e0 with syncing := false, importedCount := some imp } := by
  simp [markSyncDone, h, setStatus_self]

theorem markSyncFailed_point (st : SyncStatus) (u : Nat) (s : Source) (err : Str)
    (e0 : SyncEntry) (h : st u s = some e0) :
    markSyncFailed st u s err u s =
      some { e0 with syncing := false, error := some err } := by
  simp [markSyncFailed, h, setStatus_self]

/-- C2 (amended): the incremental poll checks the sync flag and, while a
sync for the same user and source is marked in flight, performs zero
fetches and leaves both the database and the status untouched.  The
full-sync endpoints, by contrast, perform no such check (see the
counterexample theorem). -/
theorem poll_single_flight (u : Nat) (st : SyncStatus) (cutoff : Nat)
    (msgs : List GmailListItem) (embed : Str → List ℚ) (db : List Email)
    (h : ((st u Source.gmail).map SyncEntry.syncing).getD false = true) :
    poll_new_emails u true st cutoff msgs embed db = ⟨db, st, 0, 0, []⟩ := by
  simp [poll_new_emails, h]

/-- C2 witness: the poll no-ops concretely under an in-flight flag. -/
theorem poll_single_flight_witness :
    poll_new_emails 1 true wSyncingSt 0 [wItem1] wEmbed [] =
      ⟨[], wSyncingSt, 0, 0, []⟩ :=
  poll_single_flight 1 wSyncingSt 0 [wItem1] wEmbed [] (by decide)

/-- C2, counterexample to the claim as stated: the full-sync entry point
started while the same user and source are already marked syncing still
fetches a record and rewrites the state. -/
theorem full_sync_ignores_syncing_flag :
    wSyncingSt 1 Source.gmail = some ⟨true, none, none⟩ ∧
    (fullGmailSync wSyncingSt 1 true true [wItem1] wEmbed []).fetches = 1 ∧
    (fullGmailSync wSyncingSt 1 true true [wItem1] wEmbed []).status 1 Source.gmail =
      some ⟨false, some 1, none⟩ := by
  refine ⟨by decide, by decide, by decide⟩

/-- C6 (amended): when the background task actually runs (user and token
still present), the syncing flag ends false on success and on failure,
with the error recorded and the partially committed records retained on
failure; the clearing is branch code, so the early-return path is not
covered (see the counterexample theorem). -/
theorem sync_clears_flag_when_task_runs (st : SyncStatus) (u : Nat)
    (msgs : List GmailListItem) (embed : Str → List ℚ) (db : List Email)
    (items : List HubItem) (cdb : List Contact) :
    ((fullGmailSync st u true true msgs embed db).status u Source.gmail).map
      SyncEntry.syncing = some false ∧
    (fullGmailSync st u true true msgs embed db).db =
      (processGmailMsgs u embed msgs db 0 0 []).db ∧
    (∀ e, (processGmailMsgs u embed msgs db 0 0 []).error = some e →
      (fullGmailSync st u true true msgs embed db).status u Source.gmail =
        some ⟨false, none, some e⟩) ∧
    ((fullHubspotSync st u true true items embed cdb).status u Source.hubspot).map
      SyncEntry.syncing = some false ∧
    (fullHubspotSync st u true true items embed cdb).db =
      (processHubItems u embed items cdb 0 0).db ∧
    (∀ e, (processHubItems u embed items cdb 0 0).error = some e →
      (fullHubspotSync st u true true items embed cdb).status u Source.hubspot =
        some ⟨false, none, some e⟩) := by
  have hst1 : (setStatus st u Source.gmail ⟨true, none, none⟩) u Source.gmail
      = some ⟨true, none, none⟩ := setStatus_self st u Source.gmail _
  have hst2 : (setStatus st u Source.hubspot ⟨true, none, none⟩) u Source.hubspot
      = some ⟨true, none, none⟩ := setStatus_self st u Source.hubspot _
  refine ⟨?_, ?_, ?_, ?_, ?_, ?_⟩
  · rcases herr : (processGmailMsgs u embed msgs db 0 0 []).error with _ | e
    · simp [fullGmailSync, sync_gmail, sync_gmail_background, herr,
        markSyncDone_point _ u Source.gmail _ _ hst1]
    · simp [fullGmailSync, sync_gmail, sync_gmail_background, herr,
        markSyncFailed_point _ u Source.gmail _ _ hst1]
  · rcases herr : (processGmailMsgs u embed msgs db 0 0 []).error with _ | e
    · simp [fullGmailSync, sync_gmail, sync_gmail_background, herr]
    · simp [fullGmailSync, sync_gmail, sync_gmail_background, herr]
  · intro e herr
    simp [fullGmailSync, sync_gmail, sync_gmail_background, herr,
      markSyncFailed_point _ u Source.gmail _ _ hst1]
  · rcases herr : (processHubItems u embed items cdb 0 0).error with _ | e
    · simp [fullHubspotSync, sync_hubspot, sync_hubspot_background, herr,
        markSyncDone_point _ u Source.hubspot _ _ hst2]
    · simp [fullHubspotSync, sync_hubspot, sync_hubspot_background, herr,
        markSyncFailed_point _ u Source.hubspot _ _ hst2]
  · rcases herr : (processHubItems u embed items cdb 0 0).error with _ | e
    · simp [fullHubspotSync, sync_hubspot, sync_hubspot_background, herr]
    · simp [fullHubspotSync, sync_hubspot, sync_hubspot_background, herr]
  · intro e herr
    simp [fullHubspotSync, sync_hubspot, sync_hubspot_background, herr,
      markSyncFailed_point _ u Source.hubspot _ _ hst2]

/-- C6 witness: a failing run clears the flag and records the error. -/
theorem sync_clears_flag_witness :
    ((fullGmailSync wEmptySt 1 true true [wFailItem] wEmbed []).status 1
      Source.gmail).map SyncEntry.syncing = some false ∧
    (fullGmailSync wEmptySt 1 true true [wFailItem] wEmbed []).status 1
      Source.gmail = some ⟨false, none, some (str "boom")⟩ := by
  have h := sync_clears_flag_when_task_runs wEmptySt 1 [wFailItem] wEmbed []
    [hubItemFresh] []
  exact ⟨h.1, h.2.2.1 (str "boom") (by decide)⟩

/-- C6, counterexample to the claim as stated: when the token disappears
between the endpoint and the background task, the early return leaves
the syncing flag set forever. -/
theorem early_return_leaves_flag_set :
    (fullGmailSync wEmptySt 1 true false [wItem1] wEmbed []).status 1 Source.gmail =
      some ⟨true, none, none⟩ := by
  decide

/-- C10: the gmail id and hubspot id unique indexes are global, while
the dedup check is scoped to the importing user; ingesting a record whose
external id already exists under another user passes the dedup check,
violates the constraint on commit, and aborts the whole run with a
recorded error instead of being skipped. -/
theorem global_unique_aborts_cross_user (u : Nat) (embed : Str → List ℚ)
    (gid : Str) (x : ExtEmail) (rest : List GmailListItem) (db : List Email)
    (st : SyncStatus)
    (hdup : db.any (fun e2 => e2.gmailId == gid) = true)
    (hmine : hasEmailFor db u gid = false) :
    processGmailMsgs u embed (⟨gid, Except.ok x⟩ :: rest) db 0 0 [] =
      ⟨db, 0, 1, [], some dupKeyErr⟩ ∧
    (sync_gmail_background u true (⟨gid, Except.ok x⟩ :: rest) embed db st).db = db ∧
    (sync_gmail_background u true (⟨gid, Except.ok x⟩ :: rest) embed db st).imported = 0 ∧
    (∀ e0, st u Source.gmail = some e0 →
      (sync_gmail_background u true (⟨gid, Except.ok x⟩ :: rest) embed db st).status
        u Source.gmail = some ⟨false, e0.importedCount, some dupKeyErr⟩) := by
  have hins : insertEmail db (mkEmail u embed gid x) = Except.error dupKeyErr := by
    simp [insertEmail, mkEmail, hdup]
  have hrun : processGmailMsgs u embed (⟨gid, Except.ok x⟩ :: rest) db 0 0 [] =
      ⟨db, 0, 1, [], some dupKeyErr⟩ := by
    simp [processGmailMsgs, hmine, hins]
  refine ⟨hrun, ?_, ?_, ?_⟩
  · simp [sync_gmail_background, hrun]
  · simp [sync_gmail_background, hrun]
  · intro e0 h0
    have hmark := markSyncFailed_point st u Source.gmail dupKeyErr e0 h0
    simp [sync_gmail_background, hrun, hmark]

/-- C10 witness: user 1 ingesting the gmail id already stored for user 2. -/
theorem global_unique_witness :
    processGmailMsgs 1 wEmbed [⟨str "g1", Except.ok wExt1⟩] [emailOtherUser] 0 0 [] =
      ⟨[emailOtherUser], 0, 1, [], some dupKeyErr⟩ ∧
    (sync_gmail_background 1 true [⟨str "g1", Except.ok wExt1⟩] wEmbed
      [emailOtherUser] wSyncingSt).db = [emailOtherUser] ∧
    (sync_gmail_background 1 true [⟨str "g1", Except.ok wExt1⟩] wEmbed
      [emailOtherUser] wSyncingSt).status 1 Source.gmail =
      some ⟨false, none, some dupKeyErr⟩ := by
  have h := global_unique_aborts_cross_user 1 wEmbed (str "g1") wExt1 []
    [emailOtherUser] wSyncingSt (by decide) (by decide)
  exact ⟨h.1, h.2.1, h.2.2.2 ⟨true, none, none⟩ (by decide)⟩

/-! Support lemmas for the idempotent-ingestion claim. -/

theorem find?_append_not (p : α → Bool) (l : List α) (a : α) (h : ¬p a = true) :
    List.find? p (l ++ [a]) = List.find? p l := by
  induction l with
  | nil => simpa using List.find?_cons_of_neg [] h
  | cons b bs ih =>
    by_cases hb : p b = true
    · simp [List.find?_cons_of_pos _ hb]
    · simp only [List.cons_append, List.find?_cons_of_neg _ hb, ih]

theorem find?_append_found (p : α → Bool) (l : List α) (a : α)
    (hl : List.find? p l = none) (ha : p a = true) :
    List.find? p (l ++ [a]) = some a := by
  induction l with
  | nil => simpa using List.find?_cons_of_pos [] ha
  | cons b bs ih =>
    have hb : ¬p b = true := by
      intro hb
      rw [List.find?_cons_of_pos _ hb] at hl
      exact Option.noConfusion hl
    rw [List.find?_cons_of_neg _ hb] at hl
    rw [List.cons_append, List.find?_cons_of_neg _ hb]
    exact ih hl

theorem find?_updateFirst_self (p : α → Bool) (f : α → α) (l : List α) (c : α)
    (h : List.find? p l = some c) (hf : p (f c) = true) :
    List.find? p (updateFirst p f l) = some (f c) := by
  induction l with
  | nil => simp [List.find?] at h
  | cons b bs ih =>
    by_cases hb : p b = true
    · rw [List.find?_cons_of_pos _ hb] at h
      have hbc : b = c := Option.some.inj h
      subst hbc
      simp [updateFirst, hb, List.find?_cons_of_pos _ hf]
    · have hb2 : p b = false := by simpa using hb
      rw [List.find?_cons_of_neg _ hb] at h
      simp [updateFirst, hb2, List.find?_cons_of_neg _ hb, ih h]

theorem find?_updateFirst_other (p q : α → Bool) (f : α → α) (l : List α)
    (hq : ∀ c, q c = true → p c = false)
    (hqf : ∀ c, q c = true → p (f c) = false) :
    List.find? p (updateFirst q f l) = List.find? p l := by
  induction l with
  | nil => simp [updateFirst]
  | cons b bs ih =>
    by_cases hb : q b = true
    · have h1 : ¬p b = true := by simp [hq b hb]
      have h2 : ¬p (f b) = true := by simp [hqf b hb]
      simp only [updateFirst, hb, if_true, List.find?_cons_of_neg _ h1,
        List.find?_cons_of_neg _ h2]
    · have hb2 : q b = false := by simpa using hb
      by_cases hpb : p b = true
      · simp [updateFirst, hb2, List.find?_cons_of_pos _ hpb]
      · simp [updateFirst, hb2, List.find?_cons_of_neg _ hpb, ih]

theorem updateFirst_eq_self (p : α → Bool) (f : α → α) (l : List α) (c : α)
    (h : List.find? p l = some c) (hc : f c = c) : updateFirst p f l = l := by
  induction l with
  | nil => simp [updateFirst]
  | cons b bs ih =>
    by_cases hb : p b = true
    · rw [List.find?_cons_of_pos _ hb] at h
      have hbc : b = c := Option.some.inj h
      subst hbc
      simp [updateFirst, hb, hc]
    · have hb2 : p b = false := by simpa using hb
      rw [List.find?_cons_of_neg _ hb] at h
      simp [updateFirst, hb2, ih h]

/-- Unfolding of the commit of a new email row, with the mkEmail
projection reduced. -/
theorem insertEmail_mkEmail (db : List Email) (u : Nat) (embed : Str → List ℚ)
    (gid : Str) (y : ExtEmail) :
    insertEmail db (mkEmail u embed gid y) =
      if db.any (fun e2 => e2.gmailId == gid) then Except.error dupKeyErr
      else Except.ok (db ++ [mkEmail u embed gid y]) := rfl

/-- Rows committed before any abort stay in the database: the record
loop only appends. -/
theorem processGmailMsgs_mono (u : Nat) (embed : Str → List ℚ)
    (msgs : List GmailListItem) :
    ∀ (db : List Email) (imp fet : Nat) (trg : List Str) (x : Email), x ∈ db →
      x ∈ (processGmailMsgs u embed msgs db imp fet trg).db := by
  induction msgs with
  | nil =>
    intro db imp fet trg x hx
    simpa [processGmailMsgs] using hx
  | cons item rest ih =>
    intro db imp fet trg x hx
    obtain ⟨gid, fetch⟩ := item
    by_cases hc : hasEmailFor db u gid = true
    · simpa [processGmailMsgs, hc] using ih db imp fet trg x hx
    · have hc2 : hasEmailFor db u gid = false := by simpa using hc
      cases fetch with
      | error e => simpa [processGmailMsgs, hc2] using hx
      | ok y =>
        by_cases hd : db.any (fun e2 => e2.gmailId == gid) = true
        · simpa [processGmailMsgs, hc2, insertEmail_mkEmail, hd] using hx
        · have hd2 : db.any (fun e2 => e2.gmailId == gid) = false := by simpa using hd
          simp only [processGmailMsgs, hc2, Bool.false_eq_true, if_false,
            insertEmail_mkEmail, hd2]
          exact ih _ _ _ _ x (List.mem_append_left _ hx)

theorem hasEmailFor_mono (u : Nat) (embed : Str → List ℚ)
    (msgs : List GmailListItem) (db : List Email) (imp fet : Nat)
    (trg : List Str) (g : Str) (h : hasEmailFor db u g = true) :
    hasEmailFor (processGmailMsgs u embed msgs db imp fet trg).db u g = true := by
  rw [hasEmailFor, List.any_eq_true] at h ⊢
  obtain ⟨x, hx, hpx⟩ := h
  exact ⟨x, processGmailMsgs_mono u embed msgs db imp fet trg x hx, hpx⟩

/-- After a run that finished without error, every listed id has a row
for the user. -/
theorem processGmailMsgs_covers (u : Nat) (embed : Str → List ℚ)
    (msgs : List GmailListItem) :
    ∀ (db : List Email) (imp fet : Nat) (trg : List Str),
      (processGmailMsgs u embed msgs db imp fet trg).error = none →
      ∀ item ∈ msgs,
        hasEmailFor (processGmailMsgs u embed msgs db imp fet trg).db u
          item.gmailId = true := by
  induction msgs with
  | nil =>
    intro db imp fet trg _ item hitem
    exact absurd hitem (List.not_mem_nil item)
  | cons it rest ih =>
    intro db imp fet trg herr item hitem
    obtain ⟨gid, fetch⟩ := it
    by_cases hc : hasEmailFor db u gid = true
    · have heq : processGmailMsgs u embed (⟨gid, fetch⟩ :: rest) db imp fet trg
          = processGmailMsgs u embed rest db imp fet trg := by
        simp [processGmailMsgs, hc]
      rw [heq] at herr ⊢
      rcases List.mem_cons.mp hitem with rfl | hmem
      · exact hasEmailFor_mono u embed rest db imp fet trg gid hc
      · exact ih db imp fet trg herr item hmem
    · have hc2 : hasEmailFor db u gid = false := by simpa using hc
      cases fetch with
      | error e =>
        have heq : processGmailMsgs u embed (⟨gid, Except.error e⟩ :: rest) db imp fet trg
            = ⟨db, imp, fet + 1, trg, some e⟩ := by
          simp [processGmailMsgs, hc2]
        rw [heq] at herr
        exact Option.noConfusion herr
      | ok y =>
        by_cases hd : db.any (fun e2 => e2.gmailId == gid) = true
        · have heq : processGmailMsgs u embed (⟨gid, Except.ok y⟩ :: rest) db imp fet trg
              = ⟨db, imp, fet + 1, trg, some dupKeyErr⟩ := by
            simp [processGmailMsgs, hc2, insertEmail_mkEmail, hd]
          rw [heq] at herr
          exact Option.noConfusion herr
        · have hd2 : db.any (fun e2 => e2.gmailId == gid) = false := by simpa using hd
          have heq : processGmailMsgs u embed (⟨gid, Except.ok y⟩ :: rest) db imp fet trg
              = processGmailMsgs u embed rest (db ++ [mkEmail u embed gid y])
                  (imp + 1) (fet + 1) (trg ++ [gid]) := by
            simp [processGmailMsgs, hc2, insertEmail_mkEmail, hd2]
          rw [heq] at herr ⊢
          rcases List.mem_cons.mp hitem with rfl | hmem
          · have hnew : hasEmailFor (db ++ [mkEmail u embed gid y]) u gid = true := by
              rw [hasEmailFor, List.any_eq_true]
              exact ⟨mkEmail u embed gid y, List.mem_append_right _ (by simp),
                by simp [mkEmail]⟩
            exact hasEmailFor_mono u embed rest _ _ _ _ gid hnew
          · exact ih _ _ _ _ herr item hmem

/-- When every listed id already has a row for the user, the run is a
pure no-op. -/
theorem processGmailMsgs_skip_all (u : Nat) (embed : Str → List ℚ)
    (msgs : List GmailListItem) :
    ∀ (db : List Email) (imp fet : Nat) (trg : List Str),
      (∀ item ∈ msgs, hasEmailFor db u item.gmailId = true) →
      processGmailMsgs u embed msgs db imp fet trg = ⟨db, imp, fet, trg, none⟩ := by
  induction msgs with
  | nil =>
    intro db imp fet trg _
    simp [processGmailMsgs]
  | cons it rest ih =>
    intro db imp fet trg hall
    have hc : hasEmailFor db u it.gmailId = true := hall it (List.mem_cons_self it rest)
    obtain ⟨gid, fetch⟩ := it
    simp only [processGmailMsgs, hc, if_true]
    exact ih db imp fet trg (fun item hm => hall item (List.mem_cons_of_mem _ hm))

theorem matchesContact_eq (u : Nat) (hid : Str) (c : Contact)
    (h : matchesContact u hid c = true) : c.userId = u ∧ c.hubspotId = hid := by
  simpa [matchesContact, Bool.and_eq_true, beq_iff_eq] using h

theorem matchesContact_false_of_ne (u : Nat) (h hid : Str) (c : Contact)
    (hcid : c.hubspotId = hid) (hne : hid ≠ h) : matchesContact u h c = false := by
  have hb : (c.hubspotId == h) = false := by
    rw [hcid]
    exact beq_eq_false_iff_ne.mpr hne
  simp [matchesContact, hb]

theorem updateContact_matches (u : Nat) (hid : Str) (p : ExtContact) (c : Contact) :
    matchesContact u hid (updateContact p c) = matchesContact u hid c := rfl

theorem updateContact_idem (p : ExtContact) (c : Contact) :
    updateContact p (updateContact p c) = updateContact p c := rfl

theorem updateContact_mkContact (u : Nat) (embed : Str → List ℚ) (hid : Str)
    (p : ExtContact) (notes : List Str) :
    updateContact p (mkContact u embed hid p notes) = mkContact u embed hid p notes := rfl

/-- Unfolding of the commit of a new contact row, with the mkContact
projection reduced. -/
theorem insertContact_mkContact (db : List Contact) (u : Nat)
    (embed : Str → List ℚ) (hid : Str) (p : ExtContact) (notes : List Str) :
    insertContact db (mkContact u embed hid p notes) =
      if db.any (fun c => c.hubspotId == hid) then Except.error dupKeyErr
      else Except.ok (db ++ [mkContact u embed hid p notes]) := rfl

/-- Processing items with other contact ids does not change which row a
given id resolves to nor its fields. -/
theorem processHubItems_preserve (u : Nat) (embed : Str → List ℚ) (h : Str)
    (items : List HubItem) :
    ∀ (db : List Contact) (imp fet : Nat),
      (∀ it2 ∈ items, it2.hubspotId ≠ h) →
      List.find? (matchesContact u h) (processHubItems u embed items db imp fet).db =
        List.find? (matchesContact u h) db := by
  induction items with
  | nil =>
    intro db imp fet _
    simp [processHubItems]
  | cons it rest ih =>
    intro db imp fet hne
    have hit : it.hubspotId ≠ h := hne it (List.mem_cons_self it rest)
    have hrest : ∀ it2 ∈ rest, it2.hubspotId ≠ h :=
      fun it2 hm => hne it2 (List.mem_cons_of_mem _ hm)
    obtain ⟨hid, props, notesFetch⟩ := it
    by_cases hc : hasContactFor db u hid = true
    · have heq : processHubItems u embed (⟨hid, props, notesFetch⟩ :: rest) db imp fet
          = processHubItems u embed rest
              (updateFirst (matchesContact u hid) (updateContact props) db) imp fet := by
        simp [processHubItems, hc]
      rw [heq, ih _ _ _ hrest]
      apply find?_updateFirst_other
      · intro c hqc
        exact matchesContact_false_of_ne u h hid c (matchesContact_eq u hid c hqc).2 hit
      · intro c hqc
        exact matchesContact_false_of_ne u h hid (updateContact props c)
          (matchesContact_eq u hid c hqc).2 hit
    · have hc2 : hasContactFor db u hid = false := by simpa using hc
      cases notesFetch with
      | error e =>
        simp [processHubItems, hc2]
      | ok notes =>
        by_cases hd : db.any (fun c => c.hubspotId == hid) = true
        · simp [processHubItems, hc2, insertContact_mkContact, hd]
        · have hd2 : db.any (fun c => c.hubspotId == hid) = false := by simpa using hd
          have heq : processHubItems u embed (⟨hid, props, Except.ok notes⟩ :: rest) db imp fet
              = processHubItems u embed rest
                  (db ++ [mkContact u embed hid props notes]) (imp + 1) (fet + 1) := by
            simp [processHubItems, hc2, insertContact_mkContact, hd2]
          rw [heq, ih _ _ _ hrest]
          apply find?_append_not
      -- the appended row carries the other id, so it never matches
          simp only [Bool.not_eq_true]
          exact matchesContact_false_of_ne u h hid (mkContact u embed hid props notes)
            rfl hit

/-- After a run that finished without error on items with pairwise
distinct ids, every item id resolves to a row whose refreshable fields
already equal that item's properties. -/
theorem processHubItems_covers (u : Nat) (embed : Str → List ℚ)
    (items : List HubItem) :
    ∀ (db : List Contact) (imp fet : Nat),
      items.Pairwise (fun a b => a.hubspotId ≠ b.hubspotId) →
      (processHubItems u embed items db imp fet).error = none →
      ∀ it ∈ items, ∃ c,
        List.find? (matchesContact u it.hubspotId)
          (processHubItems u embed items db imp fet).db = some c ∧
        updateContact it.props c = c := by
  induction items with
  | nil =>
    intro db imp fet _ _ it hit
    exact absurd hit (List.not_mem_nil it)
  | cons it0 rest ih =>
    intro db imp fet hpw herr it hit
    obtain ⟨hhd, hpwrest⟩ := List.pairwise_cons.mp hpw
    obtain ⟨hid, props, notesFetch⟩ := it0
    by_cases hc : hasContactFor db u hid = true
    · have heq : processHubItems u embed (⟨hid, props, notesFetch⟩ :: rest) db imp fet
          = processHubItems u embed rest
              (updateFirst (matchesContact u hid) (updateContact props) db) imp fet := by
        simp [processHubItems, hc]
      rw [heq] at herr ⊢
      rcases List.mem_cons.mp hit with rfl | hmem
      · obtain ⟨c0, hc0⟩ : ∃ c0, List.find? (matchesContact u hid) db = some c0 := by
          rw [hasContactFor, List.any_eq_true] at hc
          obtain ⟨x, hx, hpx⟩ := hc
          rcases hfs : List.find? (matchesContact u hid) db with _ | c1
          · rw [List.find?_eq_none] at hfs
            exact absurd hpx (hfs x hx)
          · exact ⟨c1, rfl⟩
        have hpc0 : matchesContact u hid (updateContact props c0) = true := by
          rw [updateContact_matches]
          exact List.find?_some hc0
        have hfind2 : List.find? (matchesContact u hid)
            (updateFirst (matchesContact u hid) (updateContact props) db)
            = some (updateContact props c0) :=
          find?_updateFirst_self _ _ db c0 hc0 hpc0
        have hpres := processHubItems_preserve u embed hid rest
          (updateFirst (matchesContact u hid) (updateContact props) db) imp fet
          (fun it2 hm => Ne.symm (hhd it2 hm))
        exact ⟨updateContact props c0, by rw [hpres, hfind2],
          updateContact_idem props c0⟩
      · exact ih _ imp fet hpwrest herr it hmem
    · have hc2 : hasContactFor db u hid = false := by simpa using hc
      cases notesFetch with
      | error e =>
        have heq : processHubItems u embed (⟨hid, props, Except.error e⟩ :: rest) db imp fet
            = ⟨db, imp, fet + 1, some e⟩ := by
          simp [processHubItems, hc2]
        rw [heq] at herr
        exact Option.noConfusion herr
      | ok notes =>
        by_cases hd : db.any (fun c => c.hubspotId == hid) = true
        · have heq : processHubItems u embed (⟨hid, props, Except.ok notes⟩ :: rest) db imp fet
              = ⟨db, imp, fet + 1, some dupKeyErr⟩ := by
            simp [processHubItems, hc2, insertContact_mkContact, hd]
          rw [heq] at herr
          exact Option.noConfusion herr
        · have hd2 : db.any (fun c => c.hubspotId == hid) = false := by simpa using hd
          have heq : processHubItems u embed (⟨hid, props, Except.ok notes⟩ :: rest) db imp fet
              = processHubItems u embed rest
                  (db ++ [mkContact u embed hid props notes]) (imp + 1) (fet + 1) := by
            simp [processHubItems, hc2, insertContact_mkContact, hd2]
          rw [heq] at herr ⊢
          rcases List.mem_cons.mp hit with rfl | hmem
          · have hnone : List.find? (matchesContact u hid) db = none := by
              rw [List.find?_eq_none]
              intro x hx hpx
              simp only [hasContactFor, List.any_eq_false] at hc2
              exact (hc2 x hx) hpx
            have hpnew : matchesContact u hid (mkContact u embed hid props notes) = true := by
              simp [matchesContact, mkContact]
            have hfind2 : List.find? (matchesContact u hid)
                (db ++ [mkContact u embed hid props notes])
                = some (mkContact u embed hid props notes) :=
              find?_append_found _ db _ hnone hpnew
            have hpres := processHubItems_preserve u embed hid rest
              (db ++ [mkContact u embed hid props notes]) (imp + 1) (fet + 1)
              (fun it2 hm => Ne.symm (hhd it2 hm))
            exact ⟨mkContact u embed hid props notes, by rw [hpres, hfind2],
              updateContact_mkContact u embed hid props notes⟩
          · exact ih _ _ _ hpwrest herr it hmem

/-- When every item id already resolves to a row whose refreshable
fields equal the item's properties, the run is a pure no-op. -/
theorem processHubItems_skip_all (u : Nat) (embed : Str → List ℚ)
    (items : List HubItem) :
    ∀ (db : List Contact) (imp fet : Nat),
      (∀ it ∈ items, ∃ c, List.find? (matchesContact u it.hubspotId) db = some c ∧
        updateContact it.props c = c) →
      processHubItems u embed items db imp fet = ⟨db, imp, fet, none⟩ := by
  induction items with
  | nil =>
    intro db imp fet _
    simp [processHubItems]
  | cons it0 rest ih =>
    intro db imp fet hall
    obtain ⟨c0, hfind, hfix⟩ := hall it0 (List.mem_cons_self it0 rest)
    have hc : hasContactFor db u it0.hubspotId = true := by
      rw [hasContactFor, List.any_eq_true]
      exact ⟨c0, List.mem_of_find?_eq_some hfind, List.find?_some hfind⟩
    have hupd : updateFirst (matchesContact u it0.hubspotId)
        (updateContact it0.props) db = db :=
      updateFirst_eq_self _ _ db c0 hfind hfix
    obtain ⟨hid, props, notesFetch⟩ := it0
    simp only [processHubItems, hc, if_true, hupd]
    exact ih db imp fet (fun it2 hm => hall it2 (List.mem_cons_of_mem _ hm))

/-- C3 (amended): a Gmail full sync skips an already-imported record
outright (no insert, no fetch, no counter, no trigger), and a second run
over an unchanged listing is a pure no-op with imported_count zero; a
HubSpot full sync never duplicates or counts an existing record either,
and over an unchanged listing with distinct ids a second run is likewise
a no-op — but it does refresh the stored fields of existing contacts
from the source, which is what the counterexample exhibits. -/
theorem full_sync_idempotent_dedup :
    (∀ (u : Nat) (embed : Str → List ℚ) (item : GmailListItem)
        (rest : List GmailListItem) (db : List Email) (imp fet : Nat)
        (trg : List Str),
      hasEmailFor db u item.gmailId = true →
      processGmailMsgs u embed (item :: rest) db imp fet trg =
        processGmailMsgs u embed rest db imp fet trg) ∧
    (∀ (u : Nat) (embed : Str → List ℚ) (msgs : List GmailListItem)
        (db : List Email),
      (processGmailMsgs u embed msgs db 0 0 []).error = none →
      processGmailMsgs u embed msgs (processGmailMsgs u embed msgs db 0 0 []).db
          0 0 [] =
        ⟨(processGmailMsgs u embed msgs db 0 0 []).db, 0, 0, [], none⟩) ∧
    (∀ (u : Nat) (embed : Str → List ℚ) (items : List HubItem)
        (db : List Contact),
      items.Pairwise (fun a b => a.hubspotId ≠ b.hubspotId) →
      (processHubItems u embed items db 0 0).error = none →
      processHubItems u embed items (processHubItems u embed items db 0 0).db 0 0 =
        ⟨(processHubItems u embed items db 0 0).db, 0, 0, none⟩) := by
  refine ⟨?_, ?_, ?_⟩
  · intro u embed item rest db imp fet trg hc
    obtain ⟨gid, fetch⟩ := item
    simp only [processGmailMsgs, hc, if_true]
  · intro u embed msgs db herr
    exact processGmailMsgs_skip_all u embed msgs _ 0 0 []
      (fun item hm => processGmailMsgs_covers u embed msgs db 0 0 [] herr item hm)
  · intro u embed items db hpw herr
    exact processHubItems_skip_all u embed items _ 0 0
      (fun it hm => processHubItems_covers u embed items db 0 0 hpw herr it hm)

/-- C3, counterexample to the claim as stated: a HubSpot full sync does
not leave an existing record's fields unchanged — it overwrites them
with the freshly fetched properties. -/
theorem hubspot_updates_existing_fields :
    contactOld.firstName = some (str "Old") ∧
    (processHubItems 1 wEmbed [hubItemNew] [contactOld] 0 0).db =
      [updateContact pNew contactOld] ∧
    (updateContact pNew contactOld).firstName = some (str "New") ∧
    (processHubItems 1 wEmbed [hubItemNew] [contactOld] 0 0).db ≠ [contactOld] ∧
    (processHubItems 1 wEmbed [hubItemNew] [contactOld] 0 0).imported = 0 := by
  refine ⟨by decide, by decide, by decide, by decide, by decide⟩

/-- C3 witness: skip of an existing record and no-op second runs,
evaluated concretely. -/
theorem full_sync_idempotent_witness :
    processGmailMsgs 1 wEmbed (⟨str "g1", Except.ok wExt1⟩ :: []) [emailAlice] 0 0 [] =
      processGmailMsgs 1 wEmbed [] [emailAlice] 0 0 [] ∧
    processGmailMsgs 1 wEmbed [wItemFresh]
        (processGmailMsgs 1 wEmbed [wItemFresh] [] 0 0 []).db 0 0 [] =
      ⟨(processGmailMsgs 1 wEmbed [wItemFresh] [] 0 0 []).db, 0, 0, [], none⟩ ∧
    processHubItems 1 wEmbed [hubItemFresh]
        (processHubItems 1 wEmbed [hubItemFresh] [] 0 0).db 0 0 =
      ⟨(processHubItems 1 wEmbed [hubItemFresh] [] 0 0).db, 0, 0, none⟩ := by
  refine ⟨?_, ?_, ?_⟩
  · exact full_sync_idempotent_dedup.1 1 wEmbed ⟨str "g1", Except.ok wExt1⟩ []
      [emailAlice] 0 0 [] (by decide)
  · exact full_sync_idempotent_dedup.2.1 1 wEmbed [wItemFresh] [] (by decide)
  · exact full_sync_idempotent_dedup.2.2 1 wEmbed [hubItemFresh] [] (by decide)
      (by decide)

end FinAdv
